import Mathlib

/-! Verification of `deleteCollection` (firestore/firestore_snippets/save.go).

A shallow embedding of the paginated purge loop `deleteCollection` and of the
service it talks to.  The Firestore client is external to the repository, so it
appears here as a parameter: a state-passing `Service` with the two round trips
the loop performs (`ref.Limit(n).Documents(ctx)` and `batch.Commit(ctx)`).
The loop itself is translated statement by statement, and every round trip is
recorded in a trace so that call counts and call order can be stated.
-/

namespace DeleteCollection

/-- One outcome of `iter.Next()`: a document, `iterator.Done`, or another error. -/
inductive NextResult (Doc Err : Type) where
  | doc (d : Doc)
  | done
  | err (e : Err)
  deriving DecidableEq, Repr

/-- The client as seen by `deleteCollection`.
`documents s n` is `ref.Limit(n).Documents(ctx)`: it yields the successor state and the
iterator, given as the sequence of results of its successive `Next()` calls (an
exhausted sequence keeps answering `iterator.Done`).
`commit s b` is `batch.Commit(ctx)` for a batch whose staged deletes are `b`; the
answer is `none` for a nil error. -/
structure Service (σ Doc Err : Type) where
  documents : σ → Int → σ × List (NextResult Doc Err)
  commit : σ → List Doc → σ × Option Err

/-- A service round trip, as observed from the loop. -/
inductive Event (Doc Err : Type) where
  | list (limit : Int) (iter : List (NextResult Doc Err))
  | commit (batch : List Doc) (res : Option Err)
  deriving DecidableEq, Repr

/-- How an execution stands: `looping` when the iteration budget ran out with the
`for` loop still running, `returned err` when the function returned `err`
(`none` is Go's `nil`). -/
inductive Outcome (Err : Type) where
  | looping
  | returned (err : Option Err)
  deriving DecidableEq, Repr

/-- An execution of `deleteCollection`: its outcome, the service state it leaves, and
the round trips it made, in order. -/
structure Run (σ Doc Err : Type) where
  ret : Outcome Err
  state : σ
  trace : List (Event Doc Err)

/-- The inner `for` loop of `deleteCollection` (lines 263-274), run on the iterator
`iter` with the current `batch` and `numDeleted`.
`iterator.Done` breaks out with the batch and the counter; any other error is
returned; a document stages `batch.Delete(doc.Ref)` and increments the counter.
`numDeleted` counts the writes held in the batch's slice, so the increment stays
within Go's `int`. -/
def drain {Doc Err : Type} :
    List (NextResult Doc Err) → List Doc → Nat → Except Err (List Doc × Nat)
  | [], batch, numDeleted => .ok (batch, numDeleted)
  | .done :: _, batch, numDeleted => .ok (batch, numDeleted)
  | .err e :: _, _, _ => .error e
  | .doc d :: rest, batch, numDeleted => drain rest (batch ++ [d]) (numDeleted + 1)

/-- The function `deleteCollection` (lines 251-287); `fuel` bounds the number of
iterations of the outer `for` loop. Each iteration builds the limited query,
starts with `numDeleted := 0` and a new batch, drains the iterator, returns `nil`
when nothing was staged, and otherwise commits and goes round again. -/
def deleteCollection {σ Doc Err : Type} (svc : Service σ Doc Err) (batchSize : Int) :
    Nat → σ → Run σ Doc Err
  | 0, s => ⟨.looping, s, []⟩
  | fuel + 1, s =>
    let q := svc.documents s batchSize
    match drain q.2 [] 0 with
    | .error e => ⟨.returned (some e), q.1, [.list batchSize q.2]⟩
    | .ok (batch, numDeleted) =>
      if numDeleted = 0 then
        ⟨.returned none, q.1, [.list batchSize q.2]⟩
      else
        let c := svc.commit q.1 batch
        match c.2 with
        | some e => ⟨.returned (some e), c.1, [.list batchSize q.2, .commit batch (some e)]⟩
        | none =>
          let r := deleteCollection svc batchSize fuel c.1
          ⟨r.ret, r.state, .list batchSize q.2 :: .commit batch none :: r.trace⟩

/-! ## Reading a trace -/

/-- The documents an iterator hands out before it stops. -/
def pageDocs {Doc Err : Type} : List (NextResult Doc Err) → List Doc
  | .doc d :: rest => d :: pageDocs rest
  | _ => []

/-- How an iterator stops: `none` for `iterator.Done`, `some e` for the error `e`. -/
def pageEnd {Doc Err : Type} : List (NextResult Doc Err) → Option Err
  | .doc _ :: rest => pageEnd rest
  | .err e :: _ => some e
  | _ => none

/-- Number of list calls in a trace. -/
def listCalls {Doc Err : Type} : List (Event Doc Err) → Nat
  | [] => 0
  | .list _ _ :: rest => listCalls rest + 1
  | .commit _ _ :: rest => listCalls rest

/-- Number of commit calls in a trace. -/
def commitCalls {Doc Err : Type} : List (Event Doc Err) → Nat
  | [] => 0
  | .list _ _ :: rest => commitCalls rest
  | .commit _ _ :: rest => commitCalls rest + 1

/-- A trace made only of completed rounds: a list call that ended with
`iterator.Done` on a non-empty page, then a successful commit of exactly that
page's documents. -/
def completedRounds {Doc Err : Type} [DecidableEq Doc] (limit : Int) :
    List (Event Doc Err) → Bool
  | [] => true
  | .list l iter :: .commit batch none :: rest =>
    decide (l = limit) && (pageEnd iter).isNone && decide (pageDocs iter ≠ [])
      && decide (batch = pageDocs iter) && completedRounds limit rest
  | _ => false

/-! ## Two services -/

/-- The failure-free service of the counting properties: the state is the
collection, a list call hands out the first `n` documents (none for `n ≤ 0`) and
then `iterator.Done`, a commit removes the staged documents and succeeds. -/
def memService (Doc Err : Type) [DecidableEq Doc] : Service (List Doc) Doc Err where
  documents := fun coll n => (coll, (coll.take n.toNat).map .doc ++ [.done])
  commit := fun coll batch => (coll.filter (fun d => decide (d ∉ batch)), none)

/-- A scripted service for fault injection: the state holds the answers still to be
given, list answers first, commit answers second; each call consumes one (an
empty script answers with an empty page, respectively with success). -/
def scriptService (Doc Err : Type) :
    Service (List (List (NextResult Doc Err)) × List (Option Err)) Doc Err where
  documents := fun s _ => ((s.1.tail, s.2), s.1.headD [])
  commit := fun s _ => ((s.1, s.2.tail), s.2.headD none)

/-- Ceiling division `⌈n / p⌉` on naturals. -/
def ceilDiv (n p : Nat) : Nat := (n + p - 1) / p

/-! ## The inner loop -/

theorem drain_eq {Doc Err : Type} (iter : List (NextResult Doc Err)) :
    ∀ (batch : List Doc) (n : Nat),
      drain iter batch n =
        match pageEnd iter with
        | some e => .error e
        | none => .ok (batch ++ pageDocs iter, n + (pageDocs iter).length) := by
  induction iter with
  | nil => intro batch n; simp [drain, pageEnd, pageDocs]
  | cons x rest ih =>
    intro batch n
    cases x with
    | doc d =>
      simp only [drain, pageEnd, pageDocs, ih]
      cases pageEnd rest with
      | none => simp [Nat.add_comm, Nat.add_left_comm]
      | some e => rfl
    | done => simp [drain, pageEnd, pageDocs]
    | err e => simp [drain, pageEnd]

/-! ## One iteration of the outer loop -/

section Step

variable {σ Doc Err : Type} (svc : Service σ Doc Err) (batchSize : Int)

theorem step_list_err (fuel : Nat) (s : σ) (e : Err)
    (h : pageEnd (svc.documents s batchSize).2 = some e) :
    deleteCollection svc batchSize (fuel + 1) s =
      ⟨.returned (some e), (svc.documents s batchSize).1,
        [.list batchSize (svc.documents s batchSize).2]⟩ := by
  simp [deleteCollection, drain_eq, h]

theorem step_empty (fuel : Nat) (s : σ)
    (h : pageEnd (svc.documents s batchSize).2 = none)
    (hd : pageDocs (svc.documents s batchSize).2 = []) :
    deleteCollection svc batchSize (fuel + 1) s =
      ⟨.returned none, (svc.documents s batchSize).1,
        [.list batchSize (svc.documents s batchSize).2]⟩ := by
  simp [deleteCollection, drain_eq, h, hd]

theorem step_commit_err (fuel : Nat) (s : σ) (e : Err)
    (h : pageEnd (svc.documents s batchSize).2 = none)
    (hd : pageDocs (svc.documents s batchSize).2 ≠ [])
    (hc : (svc.commit (svc.documents s batchSize).1
      (pageDocs (svc.documents s batchSize).2)).2 = some e) :
    deleteCollection svc batchSize (fuel + 1) s =
      ⟨.returned (some e),
        (svc.commit (svc.documents s batchSize).1 (pageDocs (svc.documents s batchSize).2)).1,
        [.list batchSize (svc.documents s batchSize).2,
         .commit (pageDocs (svc.documents s batchSize).2) (some e)]⟩ := by
  simp [deleteCollection, drain_eq, h, hd, hc]

theorem step_commit_ok (fuel : Nat) (s : σ)
    (h : pageEnd (svc.documents s batchSize).2 = none)
    (hd : pageDocs (svc.documents s batchSize).2 ≠ [])
    (hc : (svc.commit (svc.documents s batchSize).1
      (pageDocs (svc.documents s batchSize).2)).2 = none) :
    deleteCollection svc batchSize (fuel + 1) s =
      ⟨(deleteCollection svc batchSize fuel (svc.commit (svc.documents s batchSize).1
          (pageDocs (svc.documents s batchSize).2)).1).ret,
        (deleteCollection svc batchSize fuel (svc.commit (svc.documents s batchSize).1
          (pageDocs (svc.documents s batchSize).2)).1).state,
        .list batchSize (svc.documents s batchSize).2 ::
          .commit (pageDocs (svc.documents s batchSize).2) none ::
          (deleteCollection svc batchSize fuel (svc.commit (svc.documents s batchSize).1
            (pageDocs (svc.documents s batchSize).2)).1).trace⟩ := by
  simp [deleteCollection, drain_eq, h, hd, hc]

/-- The four ways one iteration of the outer loop can go. -/
theorem step_cases (fuel : Nat) (s : σ) :
    (∃ e, pageEnd (svc.documents s batchSize).2 = some e ∧
      deleteCollection svc batchSize (fuel + 1) s =
        ⟨.returned (some e), (svc.documents s batchSize).1,
          [.list batchSize (svc.documents s batchSize).2]⟩) ∨
    (pageEnd (svc.documents s batchSize).2 = none ∧
      pageDocs (svc.documents s batchSize).2 = [] ∧
      deleteCollection svc batchSize (fuel + 1) s =
        ⟨.returned none, (svc.documents s batchSize).1,
          [.list batchSize (svc.documents s batchSize).2]⟩) ∨
    (∃ e c, pageEnd (svc.documents s batchSize).2 = none ∧
      pageDocs (svc.documents s batchSize).2 ≠ [] ∧
      deleteCollection svc batchSize (fuel + 1) s =
        ⟨.returned (some e), c,
          [.list batchSize (svc.documents s batchSize).2,
           .commit (pageDocs (svc.documents s batchSize).2) (some e)]⟩) ∨
    (∃ c, pageEnd (svc.documents s batchSize).2 = none ∧
      pageDocs (svc.documents s batchSize).2 ≠ [] ∧
      deleteCollection svc batchSize (fuel + 1) s =
        ⟨(deleteCollection svc batchSize fuel c).ret,
          (deleteCollection svc batchSize fuel c).state,
          .list batchSize (svc.documents s batchSize).2 ::
            .commit (pageDocs (svc.documents s batchSize).2) none ::
            (deleteCollection svc batchSize fuel c).trace⟩) := by
  cases h : pageEnd (svc.documents s batchSize).2 with
  | some e => exact Or.inl ⟨e, rfl, step_list_err svc batchSize fuel s e h⟩
  | none =>
    by_cases hd : pageDocs (svc.documents s batchSize).2 = []
    · exact Or.inr (Or.inl ⟨rfl, hd, step_empty svc batchSize fuel s h hd⟩)
    · cases hc : (svc.commit (svc.documents s batchSize).1
          (pageDocs (svc.documents s batchSize).2)).2 with
      | some e =>
        exact Or.inr (Or.inr (Or.inl
          ⟨e, _, rfl, hd, step_commit_err svc batchSize fuel s e h hd hc⟩))
      | none =>
        exact Or.inr (Or.inr (Or.inr
          ⟨_, rfl, hd, step_commit_ok svc batchSize fuel s h hd hc⟩))

end Step

/-! ## Splitting a trace at one of its events -/

theorem singleton_split {α : Type} {a x : α} {pre post : List α}
    (h : [a] = pre ++ x :: post) : pre = [] ∧ x = a ∧ post = [] := by
  cases pre with
  | nil => cases h; exact ⟨rfl, rfl, rfl⟩
  | cons y pre => simp at h

theorem pair_split {α : Type} {a b x : α} {pre post : List α}
    (h : [a, b] = pre ++ x :: post) :
    (pre = [] ∧ x = a ∧ post = [b]) ∨ (pre = [a] ∧ x = b ∧ post = []) := by
  cases pre with
  | nil => cases h; exact Or.inl ⟨rfl, rfl, rfl⟩
  | cons y pre =>
    simp only [List.cons_append, List.cons.injEq] at h
    obtain ⟨hp, hx, hq⟩ := singleton_split h.2
    exact Or.inr ⟨by rw [hp, h.1], hx, hq⟩

theorem cons_cons_split {α : Type} {a b x : α} {t pre post : List α}
    (h : a :: b :: t = pre ++ x :: post) :
    (pre = [] ∧ x = a ∧ post = b :: t) ∨ (pre = [a] ∧ x = b ∧ post = t) ∨
      ∃ rest, pre = a :: b :: rest ∧ t = rest ++ x :: post := by
  cases pre with
  | nil => cases h; exact Or.inl ⟨rfl, rfl, rfl⟩
  | cons y pre =>
    simp only [List.cons_append, List.cons.injEq] at h
    cases pre with
    | nil =>
      obtain ⟨h1, h2⟩ := h
      cases h2
      exact Or.inr (Or.inl ⟨by rw [h1], rfl, rfl⟩)
    | cons z pre =>
      simp only [List.cons_append, List.cons.injEq] at h
      exact Or.inr (Or.inr ⟨pre, by rw [h.1, h.2.1], h.2.2⟩)

/-! ## What a trace can contain -/

section Traces

variable {σ Doc Err : Type} [DecidableEq Doc] (svc : Service σ Doc Err) (batchSize : Int)

theorem completedRounds_cons_cons (iter : List (NextResult Doc Err))
    (rest : List (Event Doc Err)) (hn : pageEnd iter = none) (hd : pageDocs iter ≠ [])
    (hr : completedRounds batchSize rest = true) :
    completedRounds batchSize
      (.list batchSize iter :: .commit (pageDocs iter) none :: rest) = true := by
  simp [completedRounds, hn, hd, hr]

theorem completedRounds_counts :
    ∀ tr : List (Event Doc Err),
      completedRounds batchSize tr = true → commitCalls tr = listCalls tr
  | [], _ => rfl
  | .list _ _ :: .commit _ none :: rest, h => by
    simp only [completedRounds, Bool.and_eq_true] at h
    simp [listCalls, commitCalls, completedRounds_counts rest h.2]
  | [.list _ _], h => by simp [completedRounds] at h
  | .list _ _ :: .list _ _ :: _, h => by simp [completedRounds] at h
  | .list _ _ :: .commit _ (some _) :: _, h => by simp [completedRounds] at h
  | .commit _ _ :: _, h => by simp [completedRounds] at h

/-- Every list call of a run carries the caller's page size, and everything before
it is a sequence of completed rounds; if it failed, the run ended there with that
error. -/
theorem list_event_core (fuel : Nat) (s : σ) (pre post : List (Event Doc Err))
    (limit : Int) (iter : List (NextResult Doc Err))
    (htr : (deleteCollection svc batchSize fuel s).trace = pre ++ .list limit iter :: post) :
    limit = batchSize ∧ completedRounds batchSize pre = true ∧
      ∀ e, pageEnd iter = some e →
        (deleteCollection svc batchSize fuel s).ret = .returned (some e) ∧ post = [] := by
  induction fuel generalizing s pre with
  | zero => simp [deleteCollection] at htr
  | succ fuel ih =>
    rcases step_cases svc batchSize fuel s with
      ⟨e1, he, heq⟩ | ⟨hn, hd, heq⟩ | ⟨e1, c, hn, hd, heq⟩ | ⟨c, hn, hd, heq⟩
    · rw [heq] at htr ⊢
      obtain ⟨hp, hx, hq⟩ := singleton_split htr
      injection hx with h1 h2
      subst hp h1 h2
      refine ⟨rfl, rfl, fun e h => ?_⟩
      rw [he] at h
      injection h with h
      subst h
      exact ⟨rfl, hq⟩
    · rw [heq] at htr ⊢
      obtain ⟨hp, hx, hq⟩ := singleton_split htr
      injection hx with h1 h2
      subst hp h1 h2
      refine ⟨rfl, rfl, fun e h => ?_⟩
      rw [hn] at h
      exact absurd h (by simp)
    · rw [heq] at htr ⊢
      rcases pair_split htr with ⟨hp, hx, hq⟩ | ⟨hp, hx, hq⟩
      · injection hx with h1 h2
        subst hp h1 h2
        refine ⟨rfl, rfl, fun e h => ?_⟩
        rw [hn] at h
        exact absurd h (by simp)
      · exact absurd hx (by simp)
    · rw [heq] at htr ⊢
      rcases cons_cons_split htr with ⟨hp, hx, hq⟩ | ⟨hp, hx, hq⟩ | ⟨rest, hp, hr⟩
      · injection hx with h1 h2
        subst hp h1 h2
        refine ⟨rfl, rfl, fun e h => ?_⟩
        rw [hn] at h
        exact absurd h (by simp)
      · exact absurd hx (by simp)
      · obtain ⟨h1, h2, h3⟩ := ih c rest hr
        subst hp
        exact ⟨h1, completedRounds_cons_cons batchSize _ rest hn hd h2, h3⟩

/-- Every commit of a run comes right after a list call that ended with
`iterator.Done` on a non-empty page, commits exactly that page's documents, and
follows completed rounds only; if it failed, the run ended there with that error. -/
theorem commit_event_core (fuel : Nat) (s : σ) (pre post : List (Event Doc Err))
    (batch : List Doc) (res : Option Err)
    (htr : (deleteCollection svc batchSize fuel s).trace = pre ++ .commit batch res :: post) :
    (∃ rounds iter, pre = rounds ++ [.list batchSize iter] ∧ pageEnd iter = none ∧
        batch = pageDocs iter ∧ batch ≠ [] ∧ completedRounds batchSize rounds = true) ∧
      ∀ e, res = some e →
        (deleteCollection svc batchSize fuel s).ret = .returned (some e) ∧ post = [] := by
  induction fuel generalizing s pre with
  | zero => simp [deleteCollection] at htr
  | succ fuel ih =>
    rcases step_cases svc batchSize fuel s with
      ⟨e1, he, heq⟩ | ⟨hn, hd, heq⟩ | ⟨e1, c, hn, hd, heq⟩ | ⟨c, hn, hd, heq⟩
    · rw [heq] at htr
      exact absurd (singleton_split htr).2.1 (by simp)
    · rw [heq] at htr
      exact absurd (singleton_split htr).2.1 (by simp)
    · rw [heq] at htr ⊢
      rcases pair_split htr with ⟨hp, hx, hq⟩ | ⟨hp, hx, hq⟩
      · exact absurd hx (by simp)
      · injection hx with h1 h2
        subst hp h1 h2
        refine ⟨⟨[], _, rfl, hn, rfl, hd, rfl⟩, fun e h => ?_⟩
        injection h with h
        subst h
        exact ⟨rfl, hq⟩
    · rw [heq] at htr ⊢
      rcases cons_cons_split htr with ⟨hp, hx, hq⟩ | ⟨hp, hx, hq⟩ | ⟨rest, hp, hr⟩
      · exact absurd hx (by simp)
      · injection hx with h1 h2
        subst hp h1 h2
        exact ⟨⟨[], _, rfl, hn, rfl, hd, rfl⟩, fun e h => absurd h (by simp)⟩
      · obtain ⟨⟨rounds, iter, h1, h2, h3, h4, h5⟩, h6⟩ := ih c rest hr
        subst hp
        refine ⟨⟨_ :: _ :: rounds, iter, ?_, h2, h3, h4,
          completedRounds_cons_cons batchSize _ rounds hn hd h5⟩, h6⟩
        rw [h1]
        rfl

/-- The shape of every run: completed rounds, then nothing more (budget exhausted),
or an empty page (success), or a failed list call, or a failed commit. -/
theorem run_shape (fuel : Nat) (s : σ) :
    ∃ rounds : List (Event Doc Err), completedRounds batchSize rounds = true ∧
      (((deleteCollection svc batchSize fuel s).ret = .looping ∧
          (deleteCollection svc batchSize fuel s).trace = rounds) ∨
        (∃ iter, (deleteCollection svc batchSize fuel s).trace
              = rounds ++ [.list batchSize iter] ∧
            pageEnd iter = none ∧ pageDocs iter = [] ∧
            (deleteCollection svc batchSize fuel s).ret = .returned none) ∨
        (∃ iter e, (deleteCollection svc batchSize fuel s).trace
              = rounds ++ [.list batchSize iter] ∧
            pageEnd iter = some e ∧
            (deleteCollection svc batchSize fuel s).ret = .returned (some e)) ∨
        (∃ iter e, (deleteCollection svc batchSize fuel s).trace
              = rounds ++ [.list batchSize iter, .commit (pageDocs iter) (some e)] ∧
            pageEnd iter = none ∧ pageDocs iter ≠ [] ∧
            (deleteCollection svc batchSize fuel s).ret = .returned (some e))) := by
  induction fuel generalizing s with
  | zero => exact ⟨[], rfl, Or.inl ⟨rfl, rfl⟩⟩
  | succ fuel ih =>
    rcases step_cases svc batchSize fuel s with
      ⟨e1, he, heq⟩ | ⟨hn, hd, heq⟩ | ⟨e1, c, hn, hd, heq⟩ | ⟨c, hn, hd, heq⟩
    · rw [heq]
      exact ⟨[], rfl, Or.inr (Or.inr (Or.inl ⟨_, e1, rfl, he, rfl⟩))⟩
    · rw [heq]
      exact ⟨[], rfl, Or.inr (Or.inl ⟨_, rfl, hn, hd, rfl⟩)⟩
    · rw [heq]
      exact ⟨[], rfl, Or.inr (Or.inr (Or.inr ⟨_, e1, rfl, hn, hd, rfl⟩))⟩
    · rw [heq]
      obtain ⟨rounds, hr, h⟩ := ih c
      refine ⟨_ :: _ :: rounds, completedRounds_cons_cons batchSize _ rounds hn hd hr, ?_⟩
      rcases h with ⟨h1, h2⟩ | ⟨iter, h1, h2, h3, h4⟩ | ⟨iter, e, h1, h2, h3⟩ |
        ⟨iter, e, h1, h2, h3, h4⟩
      · exact Or.inl ⟨h1, by simp [h2]⟩
      · exact Or.inr (Or.inl ⟨iter, by simp [h1], h2, h3, h4⟩)
      · exact Or.inr (Or.inr (Or.inl ⟨iter, e, by simp [h1], h2, h3⟩))
      · exact Or.inr (Or.inr (Or.inr ⟨iter, e, by simp [h1], h2, h3, h4⟩))

omit [DecidableEq Doc] in
/-- Every iterator seen in a run is the service's answer to a list call with the
caller's page size. -/
theorem list_event_origin (fuel : Nat) (s : σ) (pre post : List (Event Doc Err))
    (limit : Int) (iter : List (NextResult Doc Err))
    (htr : (deleteCollection svc batchSize fuel s).trace = pre ++ .list limit iter :: post) :
    ∃ s1, iter = (svc.documents s1 batchSize).2 := by
  induction fuel generalizing s pre with
  | zero => simp [deleteCollection] at htr
  | succ fuel ih =>
    rcases step_cases svc batchSize fuel s with
      ⟨e1, he, heq⟩ | ⟨hn, hd, heq⟩ | ⟨e1, c, hn, hd, heq⟩ | ⟨c, hn, hd, heq⟩
    · rw [heq] at htr
      obtain ⟨_, hx, _⟩ := singleton_split htr
      injection hx with h1 h2
      exact ⟨s, h2⟩
    · rw [heq] at htr
      obtain ⟨_, hx, _⟩ := singleton_split htr
      injection hx with h1 h2
      exact ⟨s, h2⟩
    · rw [heq] at htr
      rcases pair_split htr with ⟨_, hx, _⟩ | ⟨_, hx, _⟩
      · injection hx with h1 h2
        exact ⟨s, h2⟩
      · exact absurd hx (by simp)
    · rw [heq] at htr
      rcases cons_cons_split htr with ⟨_, hx, _⟩ | ⟨_, hx, _⟩ | ⟨rest, _, hr⟩
      · injection hx with h1 h2
        exact ⟨s, h2⟩
      · exact absurd hx (by simp)
      · exact ih c rest hr

omit [DecidableEq Doc] in
theorem listCalls_append (a b : List (Event Doc Err)) :
    listCalls (a ++ b) = listCalls a + listCalls b := by
  induction a with
  | nil => simp [listCalls]
  | cons x a ih => cases x <;> simp [listCalls, ih]; omega

omit [DecidableEq Doc] in
theorem commitCalls_append (a b : List (Event Doc Err)) :
    commitCalls (a ++ b) = commitCalls a + commitCalls b := by
  induction a with
  | nil => simp [commitCalls]
  | cons x a ih => cases x <;> simp [commitCalls, ih]; omega

end Traces

/-! ## Ceiling division -/

/-- The value `ceilDiv n p` is the least `k` with `n ≤ k * p`: it is `⌈n / p⌉`. -/
theorem ceilDiv_le_iff (n p k : Nat) (hp : 0 < p) : ceilDiv n p ≤ k ↔ n ≤ k * p := by
  unfold ceilDiv
  rw [← Nat.lt_succ_iff, Nat.div_lt_iff_lt_mul hp, Nat.succ_mul]
  generalize k * p = m
  omega

theorem ceilDiv_zero (p : Nat) (hp : 0 < p) : ceilDiv 0 p = 0 := by
  unfold ceilDiv
  exact Nat.div_eq_of_lt (by omega)

theorem ceilDiv_step (n p : Nat) (hp : 0 < p) (hn : 0 < n) :
    ceilDiv n p = ceilDiv (n - p) p + 1 := by
  unfold ceilDiv
  by_cases h : p ≤ n
  · have : n + p - 1 = (n - p + p - 1) + p := by omega
    rw [this, Nat.add_div_right _ hp]
  · have h0 : n - p = 0 := by omega
    have e1 : (p - 1) / p = 0 := Nat.div_eq_of_lt (by omega)
    have e2 : (n + p - 1) / p = 1 := Nat.div_eq_of_lt_le (by omega) (by omega)
    rw [h0, Nat.zero_add, e1, e2]

/-! ## The failure-free service -/

section Mem

variable {Doc : Type} (Err : Type)

theorem pageEnd_docs_done (l : List Doc) :
    pageEnd (l.map NextResult.doc ++ [(NextResult.done : NextResult Doc Err)]) = none := by
  induction l with
  | nil => rfl
  | cons d l ih => simpa [pageEnd] using ih

theorem pageDocs_docs_done (l : List Doc) :
    pageDocs (l.map NextResult.doc ++ [(NextResult.done : NextResult Doc Err)]) = l := by
  induction l with
  | nil => rfl
  | cons d l ih => simpa [pageDocs] using ih

variable [DecidableEq Doc]

theorem filter_not_mem_take (coll : List Doc) (n : Nat) (hnd : coll.Nodup) :
    coll.filter (fun d => decide (d ∉ coll.take n)) = coll.drop n := by
  have hdisj := List.disjoint_take_drop hnd (le_refl n)
  conv_lhs => arg 2; rw [← List.take_append_drop n coll]
  rw [List.filter_append]
  have h1 : (coll.take n).filter (fun d => decide (d ∉ coll.take n)) = [] := by
    rw [List.filter_eq_nil_iff]
    intro a ha
    simp [ha]
  have h2 : (coll.drop n).filter (fun d => decide (d ∉ coll.take n)) = coll.drop n := by
    rw [List.filter_eq_self]
    intro a ha
    have : a ∉ coll.take n := fun h => hdisj h ha
    simp [this]
  rw [h1, h2, List.nil_append]

/-- A failure-free run on a collection of distinct documents, with a positive page
size and budget for all its rounds: it returns `nil`, leaves the collection empty,
and makes `⌈N / p⌉` commits and one list call more. -/
theorem mem_run (batchSize : Int) (hp : 1 ≤ batchSize) :
    ∀ (fuel : Nat) (coll : List Doc), coll.Nodup →
      ceilDiv coll.length batchSize.toNat < fuel →
      (deleteCollection (memService Doc Err) batchSize fuel coll).ret = .returned none ∧
      (deleteCollection (memService Doc Err) batchSize fuel coll).state = [] ∧
      commitCalls (deleteCollection (memService Doc Err) batchSize fuel coll).trace
        = ceilDiv coll.length batchSize.toNat ∧
      listCalls (deleteCollection (memService Doc Err) batchSize fuel coll).trace
        = ceilDiv coll.length batchSize.toNat + 1 := by
  have hn : 0 < batchSize.toNat := by omega
  intro fuel
  induction fuel with
  | zero => intro coll _ h; exact absurd h (Nat.not_lt_zero _)
  | succ fuel ih =>
    intro coll hnd hf
    have hq : (memService Doc Err).documents coll batchSize
        = (coll, (coll.take batchSize.toNat).map .doc ++ [.done]) := rfl
    have hE : pageEnd ((memService Doc Err).documents coll batchSize).2 = none := by
      rw [hq]; exact pageEnd_docs_done Err _
    have hD : pageDocs ((memService Doc Err).documents coll batchSize).2
        = coll.take batchSize.toNat := by
      rw [hq]; exact pageDocs_docs_done Err _
    by_cases hc : coll = []
    · subst hc
      rw [step_empty _ _ _ _ hE (by rw [hD]; simp)]
      simp [listCalls, commitCalls, ceilDiv_zero _ hn, memService]
    · have hlen : 0 < coll.length := List.length_pos.mpr hc
      have hne : pageDocs ((memService Doc Err).documents coll batchSize).2 ≠ [] := by
        rw [hD]
        intro h
        have := congrArg List.length h
        rw [List.length_take, List.length_nil] at this
        omega
      have hstep := ceilDiv_step coll.length batchSize.toNat hn hlen
      rw [step_commit_ok _ _ _ _ hE hne rfl]
      have hstate : ((memService Doc Err).commit
          ((memService Doc Err).documents coll batchSize).1
          (pageDocs ((memService Doc Err).documents coll batchSize).2)).1
            = coll.drop batchSize.toNat := by
        rw [hD]
        exact filter_not_mem_take coll _ hnd
      rw [hstate]
      have hnd2 : (coll.drop batchSize.toNat).Nodup :=
        hnd.sublist (List.drop_sublist _ _)
      have hlen2 : (coll.drop batchSize.toNat).length = coll.length - batchSize.toNat :=
        List.length_drop _ _
      obtain ⟨h1, h2, h3, h4⟩ := ih (coll.drop batchSize.toNat) hnd2 (by
        rw [hlen2]; omega)
      refine ⟨h1, h2, ?_, ?_⟩
      · simp only [commitCalls, listCalls, h3, hlen2]; omega
      · simp only [commitCalls, listCalls, h4, hlen2]; omega

theorem ceilDiv_mono (a b p : Nat) (h : a ≤ b) : ceilDiv a p ≤ ceilDiv b p := by
  unfold ceilDiv
  exact Nat.div_le_div_right (by omega)

theorem length_filter_not_mem_take (coll : List Doc) (n : Nat) :
    (coll.filter (fun d => decide (d ∉ coll.take n))).length ≤ coll.length - n := by
  have h1 : (coll.take n).filter (fun d => decide (d ∉ coll.take n)) = [] := by
    rw [List.filter_eq_nil_iff]
    intro a ha
    simp [ha]
  conv_lhs => arg 1; arg 2; rw [← List.take_append_drop n coll]
  rw [List.filter_append, h1, List.nil_append]
  exact (List.length_filter_le _ _).trans (le_of_eq (List.length_drop _ _))

/-- A failure-free run with a positive page size and budget for all its rounds
returns `nil` and leaves the collection empty. -/
theorem mem_run_purges (batchSize : Int) (hp : 1 ≤ batchSize) :
    ∀ (fuel : Nat) (coll : List Doc),
      ceilDiv coll.length batchSize.toNat < fuel →
      (deleteCollection (memService Doc Err) batchSize fuel coll).ret = .returned none ∧
      (deleteCollection (memService Doc Err) batchSize fuel coll).state = [] := by
  have hn : 0 < batchSize.toNat := by omega
  intro fuel
  induction fuel with
  | zero => intro coll h; exact absurd h (Nat.not_lt_zero _)
  | succ fuel ih =>
    intro coll hf
    have hq : (memService Doc Err).documents coll batchSize
        = (coll, (coll.take batchSize.toNat).map .doc ++ [.done]) := rfl
    have hE : pageEnd ((memService Doc Err).documents coll batchSize).2 = none := by
      rw [hq]; exact pageEnd_docs_done Err _
    have hD : pageDocs ((memService Doc Err).documents coll batchSize).2
        = coll.take batchSize.toNat := by
      rw [hq]; exact pageDocs_docs_done Err _
    by_cases hc : coll = []
    · subst hc
      rw [step_empty _ _ _ _ hE (by rw [hD]; simp)]
      exact ⟨rfl, rfl⟩
    · have hlen : 0 < coll.length := List.length_pos.mpr hc
      have hne : pageDocs ((memService Doc Err).documents coll batchSize).2 ≠ [] := by
        rw [hD]
        intro h
        have := congrArg List.length h
        rw [List.length_take, List.length_nil] at this
        omega
      have hstep := ceilDiv_step coll.length batchSize.toNat hn hlen
      rw [step_commit_ok _ _ _ _ hE hne rfl]
      have hstate : ((memService Doc Err).commit
          ((memService Doc Err).documents coll batchSize).1
          (pageDocs ((memService Doc Err).documents coll batchSize).2)).1
            = coll.filter (fun d => decide (d ∉ coll.take batchSize.toNat)) := by
        rw [hD]
        rfl
      rw [hstate]
      have hmono := ceilDiv_mono _ _ batchSize.toNat
        (length_filter_not_mem_take coll batchSize.toNat)
      exact ih _ (by omega)

/-- The failure-free service never hands out more documents than the limit asks for. -/
theorem memService_honours_limit (coll : List Doc) (n : Int) (hn : 1 ≤ n) :
    ((pageDocs ((memService Doc Err).documents coll n).2).length : Int) ≤ n := by
  have hq : (memService Doc Err).documents coll n
      = (coll, (coll.take n.toNat).map .doc ++ [.done]) := rfl
  rw [hq, pageDocs_docs_done, List.length_take]
  omega

end Mem

/-! ## The properties of `deleteCollection` -/

section Claims

variable {σ Doc Err : Type} [DecidableEq Doc]

/-- C1: with a page size of at least 1, a collection of N documents, no failing
call and no concurrent insert, `deleteCollection` terminates (any budget above
`⌈N / pageSize⌉` iterations of its loop is enough), returns `nil`, and leaves the
collection with zero documents. -/
theorem deleteCollection_purges (Err : Type) (batchSize : Int) (hp : 1 ≤ batchSize)
    (coll : List Doc) (fuel : Nat)
    (hf : ceilDiv coll.length batchSize.toNat < fuel) :
    (deleteCollection (memService Doc Err) batchSize fuel coll).ret = .returned none ∧
      (deleteCollection (memService Doc Err) batchSize fuel coll).state = [] :=
  mem_run_purges Err batchSize hp fuel coll hf

theorem deleteCollection_purges_witness :
    (1 : Int) ≤ 2 ∧ ceilDiv [10, 20, 30].length (2 : Int).toNat < 3 ∧
      (deleteCollection (memService Nat Unit) 2 3 [10, 20, 30]).ret = .returned none ∧
      (deleteCollection (memService Nat Unit) 2 3 [10, 20, 30]).state = [] :=
  ⟨by decide, by decide,
    deleteCollection_purges Unit 2 (by decide) [10, 20, 30] 3 (by decide)⟩

/-- C2, refuted as stated: on three documents with page size 2 the failure-free run
returns `nil` after `⌈3 / 2⌉ = 2` commits but three list calls, not two. -/
theorem list_calls_exceed_ceiling :
    (deleteCollection (memService Nat Unit) 2 10 [10, 20, 30]).ret = .returned none ∧
      commitCalls (deleteCollection (memService Nat Unit) 2 10 [10, 20, 30]).trace
        = ceilDiv 3 2 ∧
      listCalls (deleteCollection (memService Nat Unit) 2 10 [10, 20, 30]).trace = 3 ∧
      listCalls (deleteCollection (memService Nat Unit) 2 10 [10, 20, 30]).trace
        ≠ ceilDiv 3 2 := by
  decide

/-- C2, amended: with a page size of at least 1, a collection of N distinct
documents, no failure and no concurrent insert, a run of `deleteCollection` issues
exactly `⌈N / pageSize⌉` commit calls and exactly `⌈N / pageSize⌉ + 1` list calls,
the last list call being the one that finds the collection empty. -/
theorem list_and_commit_counts (Err : Type) (batchSize : Int) (hp : 1 ≤ batchSize)
    (coll : List Doc) (hnd : coll.Nodup) (fuel : Nat)
    (hf : ceilDiv coll.length batchSize.toNat < fuel) :
    listCalls (deleteCollection (memService Doc Err) batchSize fuel coll).trace
        = ceilDiv coll.length batchSize.toNat + 1 ∧
      commitCalls (deleteCollection (memService Doc Err) batchSize fuel coll).trace
        = ceilDiv coll.length batchSize.toNat :=
  have h := mem_run Err batchSize hp fuel coll hnd hf
  ⟨h.2.2.2, h.2.2.1⟩

theorem list_and_commit_counts_witness :
    (1 : Int) ≤ 2 ∧ [10, 20, 30, 40, 50].Nodup ∧
      ceilDiv [10, 20, 30, 40, 50].length (2 : Int).toNat < 4 ∧
      listCalls (deleteCollection (memService Nat Unit) 2 4 [10, 20, 30, 40, 50]).trace
        = ceilDiv [10, 20, 30, 40, 50].length (2 : Int).toNat + 1 ∧
      commitCalls (deleteCollection (memService Nat Unit) 2 4 [10, 20, 30, 40, 50]).trace
        = ceilDiv [10, 20, 30, 40, 50].length (2 : Int).toNat :=
  ⟨by decide, by decide, by decide,
    list_and_commit_counts Unit 2 (by decide) [10, 20, 30, 40, 50] (by decide) 4 (by decide)⟩

omit [DecidableEq Doc] in
/-- C3: whatever the page size (in particular for every page size of at least 1),
when the first list call succeeds with an empty page, as it does on an empty
collection, `deleteCollection` makes exactly one list call, makes no commit call,
and returns `nil`. -/
theorem empty_collection_one_list (svc : Service σ Doc Err) (batchSize : Int)
    (fuel : Nat) (s : σ) (hfuel : 0 < fuel)
    (hend : pageEnd (svc.documents s batchSize).2 = none)
    (hdocs : pageDocs (svc.documents s batchSize).2 = []) :
    (deleteCollection svc batchSize fuel s).ret = .returned none ∧
      (deleteCollection svc batchSize fuel s).trace
        = [.list batchSize (svc.documents s batchSize).2] ∧
      listCalls (deleteCollection svc batchSize fuel s).trace = 1 ∧
      commitCalls (deleteCollection svc batchSize fuel s).trace = 0 := by
  obtain ⟨m, rfl⟩ : ∃ m, fuel = m + 1 := ⟨fuel - 1, by omega⟩
  rw [step_empty svc batchSize m s hend hdocs]
  exact ⟨rfl, rfl, rfl, rfl⟩

theorem empty_collection_one_list_witness :
    0 < 1 ∧
      pageEnd ((memService Nat Unit).documents [] 5).2 = none ∧
      pageDocs ((memService Nat Unit).documents [] 5).2 = [] ∧
      (deleteCollection (memService Nat Unit) 5 1 []).ret = .returned none ∧
      (deleteCollection (memService Nat Unit) 5 1 []).trace
        = [.list 5 ((memService Nat Unit).documents [] 5).2] ∧
      listCalls (deleteCollection (memService Nat Unit) 5 1 []).trace = 1 ∧
      commitCalls (deleteCollection (memService Nat Unit) 5 1 []).trace = 0 :=
  ⟨by decide, by decide, by decide,
    empty_collection_one_list (memService Nat Unit) 5 1 [] (by decide) (by decide)
      (by decide)⟩

/-- C4, refuted as stated: with page size 0, on a collection of three documents
whose service answers a list call of limit 0 with an empty page,
`deleteCollection` returns `nil` after one list call, having deleted nothing. -/
theorem zero_page_size_returns_nil :
    (deleteCollection (memService Nat Nat) 0 1 [10, 20, 30]).ret = .returned none ∧
      (deleteCollection (memService Nat Nat) 0 1 [10, 20, 30]).state = [10, 20, 30] ∧
      (deleteCollection (memService Nat Nat) 0 1 [10, 20, 30]).trace
        = [.list 0 [.done]] := by
  decide

/-- C4, amended: `deleteCollection` does not check the page size. With a page size
of 0 or less it starts, as with any other, by a list call carrying that page size;
it returns the error `e` after that single call when the service fails the call
with `e`, returns `nil` after that single call when the service answers with an
empty page, and whenever it returns a non-nil error that error is the one of the
service call (list or commit) it made last. -/
theorem page_size_not_validated (svc : Service σ Doc Err) (batchSize : Int)
    (hp : batchSize ≤ 0) (fuel : Nat) (s : σ) (hfuel : 0 < fuel) :
    (∃ rest, (deleteCollection svc batchSize fuel s).trace
        = .list batchSize (svc.documents s batchSize).2 :: rest) ∧
      (∀ e, pageEnd (svc.documents s batchSize).2 = some e →
        (deleteCollection svc batchSize fuel s).ret = .returned (some e) ∧
        (deleteCollection svc batchSize fuel s).trace
          = [.list batchSize (svc.documents s batchSize).2]) ∧
      (pageEnd (svc.documents s batchSize).2 = none →
        pageDocs (svc.documents s batchSize).2 = [] →
        (deleteCollection svc batchSize fuel s).ret = .returned none ∧
        (deleteCollection svc batchSize fuel s).trace
          = [.list batchSize (svc.documents s batchSize).2]) ∧
      (∀ e, (deleteCollection svc batchSize fuel s).ret = .returned (some e) →
        ∃ pre, (∃ iter, pageEnd iter = some e ∧
            (deleteCollection svc batchSize fuel s).trace
              = pre ++ [.list batchSize iter]) ∨
          (∃ batch, (deleteCollection svc batchSize fuel s).trace
              = pre ++ [.commit batch (some e)])) := by
  have _ := hp
  obtain ⟨m, rfl⟩ : ∃ m, fuel = m + 1 := ⟨fuel - 1, by omega⟩
  refine ⟨?_, ?_, ?_, ?_⟩
  · rcases step_cases svc batchSize m s with
      ⟨e1, he, heq⟩ | ⟨hn, hd, heq⟩ | ⟨e1, c, hn, hd, heq⟩ | ⟨c, hn, hd, heq⟩ <;>
      rw [heq] <;> exact ⟨_, rfl⟩
  · intro e he
    rw [step_list_err svc batchSize m s e he]
    exact ⟨rfl, rfl⟩
  · intro hn hd
    rw [step_empty svc batchSize m s hn hd]
    exact ⟨rfl, rfl⟩
  · intro e hret
    obtain ⟨rounds, _, h⟩ := run_shape svc batchSize (m + 1) s
    rcases h with ⟨h1, _⟩ | ⟨iter, _, _, _, h4⟩ | ⟨iter, e1, h1, h2, h3⟩ |
      ⟨iter, e1, h1, _, _, h4⟩
    · rw [h1] at hret; exact absurd hret (by simp)
    · rw [h4] at hret; exact absurd hret (by simp)
    · rw [h3] at hret
      injection hret with hret
      injection hret with hret
      subst hret
      exact ⟨rounds, Or.inl ⟨iter, h2, h1⟩⟩
    · rw [h4] at hret
      injection hret with hret
      injection hret with hret
      subst hret
      exact ⟨rounds ++ [.list batchSize iter], Or.inr ⟨pageDocs iter, by simp [h1]⟩⟩

theorem page_size_not_validated_witness :
    (-1 : Int) ≤ 0 ∧ 0 < 2 ∧
      ((∃ rest, (deleteCollection (scriptService Nat Nat) (-1) 2 ([[.err 3]], [])).trace
          = .list (-1) ((scriptService Nat Nat).documents ([[.err 3]], []) (-1)).2 :: rest) ∧
        (∀ e, pageEnd ((scriptService Nat Nat).documents ([[.err 3]], []) (-1)).2 = some e →
          (deleteCollection (scriptService Nat Nat) (-1) 2 ([[.err 3]], [])).ret
            = .returned (some e) ∧
          (deleteCollection (scriptService Nat Nat) (-1) 2 ([[.err 3]], [])).trace
            = [.list (-1) ((scriptService Nat Nat).documents ([[.err 3]], []) (-1)).2]) ∧
        (pageEnd ((scriptService Nat Nat).documents ([[.err 3]], []) (-1)).2 = none →
          pageDocs ((scriptService Nat Nat).documents ([[.err 3]], []) (-1)).2 = [] →
          (deleteCollection (scriptService Nat Nat) (-1) 2 ([[.err 3]], [])).ret
            = .returned none ∧
          (deleteCollection (scriptService Nat Nat) (-1) 2 ([[.err 3]], [])).trace
            = [.list (-1) ((scriptService Nat Nat).documents ([[.err 3]], []) (-1)).2]) ∧
        (∀ e, (deleteCollection (scriptService Nat Nat) (-1) 2 ([[.err 3]], [])).ret
            = .returned (some e) →
          ∃ pre, (∃ iter, pageEnd iter = some e ∧
              (deleteCollection (scriptService Nat Nat) (-1) 2 ([[.err 3]], [])).trace
                = pre ++ [.list (-1) iter]) ∨
            (∃ batch, (deleteCollection (scriptService Nat Nat) (-1) 2 ([[.err 3]], [])).trace
                = pre ++ [.commit batch (some e)]))) :=
  ⟨by decide, by decide,
    page_size_not_validated (scriptService Nat Nat) (-1) (by decide) 2 ([[.err 3]], [])
      (by decide)⟩

/-- C5: if the k-th list call of a run fails with error `e` (the calls before it
are then completed rounds: each list call ended normally on a non-empty page and
its commit succeeded), `deleteCollection` returns exactly `e` and that list call is
the last service call of the run: k list calls and k - 1 commits in all, and the
deletes staged from the failing page are never committed. -/
theorem list_failure_aborts (svc : Service σ Doc Err) (batchSize : Int) (fuel : Nat)
    (s : σ) (k : Nat) (pre post : List (Event Doc Err)) (limit : Int)
    (iter : List (NextResult Doc Err)) (e : Err)
    (htr : (deleteCollection svc batchSize fuel s).trace = pre ++ .list limit iter :: post)
    (hk : listCalls pre + 1 = k)
    (hfail : pageEnd iter = some e) :
    (deleteCollection svc batchSize fuel s).ret = .returned (some e) ∧
      post = [] ∧
      completedRounds batchSize pre = true ∧
      listCalls (deleteCollection svc batchSize fuel s).trace = k ∧
      commitCalls (deleteCollection svc batchSize fuel s).trace = k - 1 := by
  obtain ⟨_, hrounds, h⟩ := list_event_core svc batchSize fuel s pre post limit iter htr
  obtain ⟨hret, hpost⟩ := h e hfail
  refine ⟨hret, hpost, hrounds, ?_, ?_⟩
  · rw [htr, hpost, listCalls_append]
    simpa [listCalls] using hk
  · rw [htr, hpost, commitCalls_append, completedRounds_counts batchSize pre hrounds]
    simp only [commitCalls]
    omega

theorem list_failure_aborts_witness :
    (deleteCollection (scriptService Nat Nat) 1 9
        ([[.doc 10, .done], [.doc 20, .done], [.doc 30, .err 14], [.doc 40, .done]], [])).trace
      = [.list 1 [.doc 10, .done], .commit [10] none,
          .list 1 [.doc 20, .done], .commit [20] none]
        ++ .list 1 [.doc 30, .err 14] :: [] ∧
      listCalls ([.list 1 [.doc 10, .done], .commit [10] none,
          .list 1 [.doc 20, .done], .commit [20] none] : List (Event Nat Nat)) + 1 = 3 ∧
      pageEnd ([.doc 30, .err 14] : List (NextResult Nat Nat)) = some 14 ∧
      ((deleteCollection (scriptService Nat Nat) 1 9
          ([[.doc 10, .done], [.doc 20, .done], [.doc 30, .err 14], [.doc 40, .done]], [])).ret
        = .returned (some 14) ∧
        ([] : List (Event Nat Nat)) = [] ∧
        completedRounds 1 ([.list 1 [.doc 10, .done], .commit [10] none,
          .list 1 [.doc 20, .done], .commit [20] none] : List (Event Nat Nat)) = true ∧
        listCalls (deleteCollection (scriptService Nat Nat) 1 9
          ([[.doc 10, .done], [.doc 20, .done], [.doc 30, .err 14], [.doc 40, .done]], [])).trace
          = 3 ∧
        commitCalls (deleteCollection (scriptService Nat Nat) 1 9
          ([[.doc 10, .done], [.doc 20, .done], [.doc 30, .err 14], [.doc 40, .done]], [])).trace
          = 3 - 1) :=
  ⟨by decide, by decide, by decide,
    list_failure_aborts (scriptService Nat Nat) 1 9
      ([[.doc 10, .done], [.doc 20, .done], [.doc 30, .err 14], [.doc 40, .done]], []) 3
      [.list 1 [.doc 10, .done], .commit [10] none,
        .list 1 [.doc 20, .done], .commit [20] none] [] 1 [.doc 30, .err 14] 14
      (by decide) (by decide) (by decide)⟩

/-- C6: if a commit call fails with error `e`, it was issued right after a list
call that ended normally on a non-empty page and it carried exactly that page's
documents; `deleteCollection` then returns exactly `e` and the failing commit is the
last service call of the run: no further list call, no second commit. -/
theorem commit_failure_aborts (svc : Service σ Doc Err) (batchSize : Int) (fuel : Nat)
    (s : σ) (pre post : List (Event Doc Err)) (batch : List Doc) (e : Err)
    (htr : (deleteCollection svc batchSize fuel s).trace
      = pre ++ .commit batch (some e) :: post) :
    (deleteCollection svc batchSize fuel s).ret = .returned (some e) ∧
      post = [] ∧
      ∃ rounds iter, pre = rounds ++ [.list batchSize iter] ∧ pageEnd iter = none ∧
        batch = pageDocs iter ∧ batch ≠ [] ∧ completedRounds batchSize rounds = true := by
  obtain ⟨hpre, h⟩ := commit_event_core svc batchSize fuel s pre post batch (some e) htr
  exact ⟨(h e rfl).1, (h e rfl).2, hpre⟩

theorem commit_failure_aborts_witness :
    (deleteCollection (scriptService Nat Nat) 2 9
        ([[.doc 10, .doc 20, .done], [.doc 30, .doc 40, .done], [.doc 50, .done]],
          [none, some 14, none])).trace
      = [.list 2 [.doc 10, .doc 20, .done], .commit [10, 20] none,
          .list 2 [.doc 30, .doc 40, .done]]
        ++ .commit [30, 40] (some 14) :: [] ∧
      ((deleteCollection (scriptService Nat Nat) 2 9
          ([[.doc 10, .doc 20, .done], [.doc 30, .doc 40, .done], [.doc 50, .done]],
            [none, some 14, none])).ret = .returned (some 14) ∧
        ([] : List (Event Nat Nat)) = [] ∧
        ∃ rounds iter,
          ([.list 2 [.doc 10, .doc 20, .done], .commit [10, 20] none,
              .list 2 [.doc 30, .doc 40, .done]] : List (Event Nat Nat))
            = rounds ++ [.list 2 iter] ∧
          pageEnd iter = none ∧ [30, 40] = pageDocs iter ∧ [30, 40] ≠ [] ∧
          completedRounds 2 rounds = true) :=
  ⟨by decide,
    commit_failure_aborts (scriptService Nat Nat) 2 9
      ([[.doc 10, .doc 20, .done], [.doc 30, .doc 40, .done], [.doc 50, .done]],
        [none, some 14, none])
      [.list 2 [.doc 10, .doc 20, .done], .commit [10, 20] none,
        .list 2 [.doc 30, .doc 40, .done]] [] [30, 40] 14 (by decide)⟩

/-- C7, refuted as stated: a run whose list call fails with error 14 and a run
whose commit call fails with the same error 14 return the same value. -/
theorem list_and_commit_failure_same_result :
    (deleteCollection (scriptService Nat Nat) 1 9 ([[.err 14]], [])).trace
        = [.list 1 [.err 14]] ∧
      (deleteCollection (scriptService Nat Nat) 1 9 ([[.doc 10, .done]], [some 14])).trace
        = [.list 1 [.doc 10, .done], .commit [10] (some 14)] ∧
      (deleteCollection (scriptService Nat Nat) 1 9 ([[.err 14]], [])).ret
        = (deleteCollection (scriptService Nat Nat) 1 9
            ([[.doc 10, .done]], [some 14])).ret := by
  decide

/-- C7, amended: `deleteCollection` returns the service error unchanged whichever
call raised it: a run whose list call failed with `e` and a run whose commit call
failed with the same `e` both return exactly `e`, hence the same result; the two
kinds of failure can be told apart only when the service's error values differ. -/
theorem failure_kind_not_distinguished {σ₁ σ₂ : Type} (svc₁ : Service σ₁ Doc Err)
    (svc₂ : Service σ₂ Doc Err) (size₁ size₂ : Int) (fuel₁ fuel₂ : Nat) (s₁ : σ₁) (s₂ : σ₂)
    (pre₁ post₁ pre₂ post₂ : List (Event Doc Err)) (limit : Int)
    (iter : List (NextResult Doc Err)) (batch : List Doc) (e : Err)
    (hlist : (deleteCollection svc₁ size₁ fuel₁ s₁).trace = pre₁ ++ .list limit iter :: post₁)
    (hfail : pageEnd iter = some e)
    (hcommit : (deleteCollection svc₂ size₂ fuel₂ s₂).trace
      = pre₂ ++ .commit batch (some e) :: post₂) :
    (deleteCollection svc₁ size₁ fuel₁ s₁).ret = .returned (some e) ∧
      (deleteCollection svc₂ size₂ fuel₂ s₂).ret = .returned (some e) ∧
      (deleteCollection svc₁ size₁ fuel₁ s₁).ret = (deleteCollection svc₂ size₂ fuel₂ s₂).ret := by
  have h1 := ((list_event_core svc₁ size₁ fuel₁ s₁ pre₁ post₁ limit iter hlist).2.2 e hfail).1
  have h2 := ((commit_event_core svc₂ size₂ fuel₂ s₂ pre₂ post₂ batch (some e) hcommit).2
    e rfl).1
  exact ⟨h1, h2, h1.trans h2.symm⟩

theorem failure_kind_not_distinguished_witness :
    (deleteCollection (scriptService Nat Nat) 3 9 ([[.doc 10, .err 7]], [])).trace
        = [] ++ .list 3 [.doc 10, .err 7] :: [] ∧
      pageEnd ([.doc 10, .err 7] : List (NextResult Nat Nat)) = some 7 ∧
      (deleteCollection (scriptService Nat Nat) 2 9
          ([[.doc 10, .doc 20, .done]], [some 7])).trace
        = [.list 2 [.doc 10, .doc 20, .done]] ++ .commit [10, 20] (some 7) :: [] ∧
      ((deleteCollection (scriptService Nat Nat) 3 9 ([[.doc 10, .err 7]], [])).ret
          = .returned (some 7) ∧
        (deleteCollection (scriptService Nat Nat) 2 9
          ([[.doc 10, .doc 20, .done]], [some 7])).ret = .returned (some 7) ∧
        (deleteCollection (scriptService Nat Nat) 3 9 ([[.doc 10, .err 7]], [])).ret
          = (deleteCollection (scriptService Nat Nat) 2 9
              ([[.doc 10, .doc 20, .done]], [some 7])).ret) :=
  ⟨by decide, by decide, by decide,
    failure_kind_not_distinguished (scriptService Nat Nat) (scriptService Nat Nat) 3 2 9 9
      ([[.doc 10, .err 7]], []) ([[.doc 10, .doc 20, .done]], [some 7])
      [] [] [.list 2 [.doc 10, .doc 20, .done]] [] 3 [.doc 10, .err 7] [10, 20] 7
      (by decide) (by decide) (by decide)⟩

/-- C8: in every run with a page size p of at least 1, against a service that
hands out at most as many documents as the limit asks for, each list call carries
the limit p, and each commit comes right after a list call that ended normally and
carries a batch holding exactly the documents of that page, in order and nothing
else (the batch is new: nothing staged in an earlier round is in it), so each
commit deletes between 1 and p documents, exactly one when p = 1. -/
theorem rounds_stage_listed_page (svc : Service σ Doc Err) (batchSize : Int)
    (hp : 1 ≤ batchSize)
    (hlimit : ∀ (s : σ) (n : Int), 1 ≤ n →
      ((pageDocs (svc.documents s n).2).length : Int) ≤ n)
    (fuel : Nat) (s : σ) :
    (∀ pre limit iter post,
        (deleteCollection svc batchSize fuel s).trace = pre ++ .list limit iter :: post →
        limit = batchSize ∧ ((pageDocs iter).length : Int) ≤ batchSize) ∧
      (∀ pre batch res post,
        (deleteCollection svc batchSize fuel s).trace = pre ++ .commit batch res :: post →
        (∃ rounds iter, pre = rounds ++ [.list batchSize iter] ∧ pageEnd iter = none ∧
          batch = pageDocs iter) ∧
        1 ≤ batch.length ∧ (batch.length : Int) ≤ batchSize ∧
        (batchSize = 1 → batch.length = 1)) := by
  have hbound : ∀ pre limit iter post,
      (deleteCollection svc batchSize fuel s).trace = pre ++ .list limit iter :: post →
      ((pageDocs iter).length : Int) ≤ batchSize := by
    intro pre limit iter post htr
    obtain ⟨s1, hs1⟩ := list_event_origin svc batchSize fuel s pre post limit iter htr
    rw [hs1]
    exact hlimit s1 batchSize hp
  refine ⟨fun pre limit iter post htr =>
    ⟨(list_event_core svc batchSize fuel s pre post limit iter htr).1,
      hbound pre limit iter post htr⟩, ?_⟩
  intro pre batch res post htr
  obtain ⟨⟨rounds, iter, h1, h2, h3, h4, _⟩, _⟩ :=
    commit_event_core svc batchSize fuel s pre post batch res htr
  have hlen : 1 ≤ batch.length := List.length_pos.mpr h4
  have hle : (batch.length : Int) ≤ batchSize := by
    rw [h3]
    refine hbound rounds batchSize iter (.commit batch res :: post) ?_
    rw [htr, h1]
    simp
  exact ⟨⟨rounds, iter, h1, h2, h3⟩, hlen, hle, fun h => by omega⟩

theorem rounds_stage_listed_page_witness :
    (1 : Int) ≤ 2 ∧
      (∀ (s : List Nat) (n : Int), 1 ≤ n →
        ((pageDocs ((memService Nat Unit).documents s n).2).length : Int) ≤ n) ∧
      ((∀ pre limit iter post,
          (deleteCollection (memService Nat Unit) 2 9 [10, 20, 30]).trace
            = pre ++ .list limit iter :: post →
          limit = 2 ∧ ((pageDocs iter).length : Int) ≤ 2) ∧
        (∀ pre batch res post,
          (deleteCollection (memService Nat Unit) 2 9 [10, 20, 30]).trace
            = pre ++ .commit batch res :: post →
          (∃ rounds iter, pre = rounds ++ [.list 2 iter] ∧ pageEnd iter = none ∧
            batch = pageDocs iter) ∧
          1 ≤ batch.length ∧ (batch.length : Int) ≤ 2 ∧
          ((2 : Int) = 1 → batch.length = 1))) :=
  ⟨by decide, fun s n hn => memService_honours_limit Unit s n hn,
    rounds_stage_listed_page (memService Nat Unit) 2 (by decide)
      (fun s n hn => memService_honours_limit Unit s n hn) 9 [10, 20, 30]⟩

/-- C9: in every run of `deleteCollection` that returns `nil`, the last service call
is a list call that ended normally with an empty page, and everything before it is
a sequence of completed rounds: a list call that ended normally with a non-empty
page, followed by a successful commit of that page. The number of rounds is not
fixed in advance. -/
theorem success_only_after_empty_page (svc : Service σ Doc Err) (batchSize : Int)
    (fuel : Nat) (s : σ)
    (hret : (deleteCollection svc batchSize fuel s).ret = .returned none) :
    ∃ rounds iter,
      (deleteCollection svc batchSize fuel s).trace = rounds ++ [.list batchSize iter] ∧
      pageEnd iter = none ∧ pageDocs iter = [] ∧
      completedRounds batchSize rounds = true := by
  obtain ⟨rounds, hr, h⟩ := run_shape svc batchSize fuel s
  rcases h with ⟨h1, _⟩ | ⟨iter, h1, h2, h3, _⟩ | ⟨iter, e, _, _, h3⟩ | ⟨iter, e, _, _, _, h4⟩
  · rw [h1] at hret; exact absurd hret (by simp)
  · exact ⟨rounds, iter, h1, h2, h3, hr⟩
  · rw [h3] at hret; exact absurd hret (by simp)
  · rw [h4] at hret; exact absurd hret (by simp)

theorem success_only_after_empty_page_witness :
    (deleteCollection (memService Nat Unit) 2 9 [10, 20, 30]).ret = .returned none ∧
      ∃ rounds iter,
        (deleteCollection (memService Nat Unit) 2 9 [10, 20, 30]).trace
          = rounds ++ [.list 2 iter] ∧
        pageEnd iter = none ∧ pageDocs iter = [] ∧ completedRounds 2 rounds = true :=
  ⟨by decide,
    success_only_after_empty_page (memService Nat Unit) 2 9 [10, 20, 30] (by decide)⟩

/-- C10: with a page size p of at least 1 and a collection of N distinct documents,
a failure-free run of `deleteCollection` (a list call hands out the first
min(p, remaining) documents, a commit removes the staged documents) returns `nil`
after exactly `⌈N / p⌉` commit calls and exactly `⌈N / p⌉ + 1` list calls, one list
call more than commits, and no commit is issued for an empty batch. -/
theorem failure_free_call_counts (Err : Type) (batchSize : Int) (hp : 1 ≤ batchSize)
    (coll : List Doc) (hnd : coll.Nodup) (fuel : Nat)
    (hf : ceilDiv coll.length batchSize.toNat < fuel) :
    (deleteCollection (memService Doc Err) batchSize fuel coll).ret = .returned none ∧
      commitCalls (deleteCollection (memService Doc Err) batchSize fuel coll).trace
        = ceilDiv coll.length batchSize.toNat ∧
      listCalls (deleteCollection (memService Doc Err) batchSize fuel coll).trace
        = ceilDiv coll.length batchSize.toNat + 1 ∧
      listCalls (deleteCollection (memService Doc Err) batchSize fuel coll).trace
        = commitCalls (deleteCollection (memService Doc Err) batchSize fuel coll).trace + 1 ∧
      ∀ pre batch res post,
        (deleteCollection (memService Doc Err) batchSize fuel coll).trace
          = pre ++ .commit batch res :: post → batch ≠ [] := by
  obtain ⟨h1, _, h3, h4⟩ := mem_run Err batchSize hp fuel coll hnd hf
  refine ⟨h1, h3, h4, by rw [h3, h4], ?_⟩
  intro pre batch res post htr
  obtain ⟨⟨_, _, _, _, _, h, _⟩, _⟩ :=
    commit_event_core (memService Doc Err) batchSize fuel coll pre post batch res htr
  exact h

theorem failure_free_call_counts_witness :
    (1 : Int) ≤ 3 ∧ [10, 20, 30, 40, 50, 60, 70].Nodup ∧
      ceilDiv [10, 20, 30, 40, 50, 60, 70].length (3 : Int).toNat < 4 ∧
      ((deleteCollection (memService Nat Unit) 3 4 [10, 20, 30, 40, 50, 60, 70]).ret
          = .returned none ∧
        commitCalls (deleteCollection (memService Nat Unit) 3 4
            [10, 20, 30, 40, 50, 60, 70]).trace
          = ceilDiv [10, 20, 30, 40, 50, 60, 70].length (3 : Int).toNat ∧
        listCalls (deleteCollection (memService Nat Unit) 3 4
            [10, 20, 30, 40, 50, 60, 70]).trace
          = ceilDiv [10, 20, 30, 40, 50, 60, 70].length (3 : Int).toNat + 1 ∧
        listCalls (deleteCollection (memService Nat Unit) 3 4
            [10, 20, 30, 40, 50, 60, 70]).trace
          = commitCalls (deleteCollection (memService Nat Unit) 3 4
              [10, 20, 30, 40, 50, 60, 70]).trace + 1 ∧
        ∀ pre batch res post,
          (deleteCollection (memService Nat Unit) 3 4 [10, 20, 30, 40, 50, 60, 70]).trace
            = pre ++ .commit batch res :: post → batch ≠ []) :=
  ⟨by decide, by decide, by decide,
    failure_free_call_counts Unit 3 (by decide) [10, 20, 30, 40, 50, 60, 70] (by decide) 4
      (by decide)⟩

end Claims

end DeleteCollection
